import Mathlib

/-!
Shallow embedding of the esdoc-webpack-plugin (`src/index.js`) configuration
resolution and process-orchestration logic, together with proofs about the
claims of its specification.

The repository contains two near-identical variants of the plugin; the
class-based variant (the first one in `src/index.js`) is the current
implementation and is the one embedded here.  Where a claim also cites the
second (older) variant, the difference is noted at the theorem.
-/

/-! ## A small model of JavaScript values

Configuration objects are JSON values read from disk (`fse.readJsonSync`)
or plain option objects.  Objects are modelled as association lists whose
lookup takes the first matching key. -/

inductive JSVal where
  | vNull : JSVal
  | vUndefined : JSVal
  | vBool : Bool → JSVal
  | vNum : Int → JSVal
  | vStr : String → JSVal
  | vArr : List JSVal → JSVal
  | vObj : List (String × JSVal) → JSVal

abbrev JSObj := List (String × JSVal)

/-- JavaScript truthiness: `null`, `undefined`, `false`, `0` and `""` are
falsy; every object, array, non-zero number and non-empty string is truthy. -/
def jsTruthy : JSVal → Bool
  | .vNull => false
  | .vUndefined => false
  | .vBool b => b
  | .vNum n => n != 0
  | .vStr s => s != ""
  | .vArr _ => true
  | .vObj _ => true

/-- Property lookup in an object's field list (first matching key wins). -/
def lookupProp (o : JSObj) (k : String) : Option JSVal :=
  (o.find? (fun kv => kv.1 == k)).map (fun kv => kv.2)

/-- The own enumerable fields contributed by a value under object spread
`{...v}`: objects give their fields, strings and arrays give indexed
entries, primitives give nothing. -/
def spreadFields : JSVal → JSObj
  | .vObj f => f
  | .vStr s => s.toList.enum.map (fun ic => (toString ic.1, JSVal.vStr (String.mk [ic.2])))
  | .vArr xs => xs.enum.map (fun iv => (toString iv.1, iv.2))
  | _ => []

/-- Lookup semantics of `{...a, ...b}`: a key found in `b` takes priority,
otherwise `a`'s value is used.  This is the merge at `src/index.js:324`
(`obj = {...obj, ...options}`). -/
def mergeSpread (a b : JSObj) : JSObj := b ++ a

/-- Property read `v[k]`.  Reading a property of `null` or `undefined`
throws a `TypeError`; every other value yields `undefined` for a missing
property. -/
def propAccess : JSVal → String → Except String JSVal
  | .vNull, _ => .error "TypeError: cannot read property of null"
  | .vUndefined, _ => .error "TypeError: cannot read property of undefined"
  | .vObj flds, k => .ok ((lookupProp flds k).getD .vUndefined)
  | .vStr s, k =>
      .ok (if k == "length" then .vNum (s.length : Int) else
        match k.toNat? with
        | some i => if i < s.length then .vStr (String.mk [s.toList.getD i ' ']) else .vUndefined
        | none => .vUndefined)
  | .vArr xs, k =>
      .ok (if k == "length" then .vNum (xs.length : Int) else
        match k.toNat? with
        | some i => xs.getD i .vUndefined
        | none => .vUndefined)
  | .vNum _, _ => .ok .vUndefined
  | .vBool _, _ => .ok .vUndefined

/-- Assoc-list field update used by property assignment. -/
def setPropFields (flds : JSObj) (k : String) (v : JSVal) : JSObj :=
  if (lookupProp flds k).isSome then
    flds.map (fun kv => if kv.1 == k then (k, v) else kv)
  else flds ++ [(k, v)]

/-- Property assignment `v[k] = x` in sloppy mode: objects are updated,
primitive receivers silently ignore the write.  (Assignment to an array's
named property is not modelled; no claim exercises it.)  Assignment on
`null` cannot occur in the embedded flow: the property *read* at
`src/index.js:317` throws first. -/
def jsSetProp : JSVal → String → JSVal → JSVal
  | .vObj flds, k, v => .vObj (setPropFields flds k v)
  | other, _, _ => other

/-- Default options of the plugin constructor (`src/index.js:30-42`). -/
def defaultOptions : JSObj :=
  [("conf", .vStr ".esdoc.json"),
   ("cwd", .vStr "./"),
   ("preserveTmpFile", .vBool true),
   ("showOutput", .vBool false),
   ("source", .vStr "./src"),
   ("destination", .vStr "./docs"),
   ("excludes", .vArr [.vStr "\\.config\\.js", .vStr "\\.babel\\.js"]),
   ("plugins", .vArr [.vObj [("name", .vStr "esdoc-standard-plugin")]])]

/-- Constructor merge `this.options = {...defaultOptions, ...opts}`
(`src/index.js:52`). -/
def constructorOptions (opts : JSObj) : JSObj := mergeSpread defaultOptions opts

/-! ## Common-Prefix Resolver (`getLongestCommonSharedDirectory`, `src/index.js:145-158`) -/

/-- One pass of the inner loop of `getLongestCommonSharedDirectory` with an
explicit iteration budget (the loop runs at most `k - j` times, so the
budget never runs out before the loop condition fails). -/
def glcsdInnerGo (s0 si : List Char) (k : Nat) : Nat → Nat → Nat
  | 0, _ => k
  | fuel + 1, j =>
      if j < k then
        if si.getD j ' ' = s0.getD j ' ' then glcsdInnerGo s0 si k fuel (j + 1) else j
      else k

/-- Inner loop of `getLongestCommonSharedDirectory`: scan `j` upwards while
`j < k`; at the first index where `s[i][j] != s[0][j]` set `k = j` and stop
(`src/index.js:149-154`). -/
def glcsdInner (s0 si : List Char) (k j : Nat) : Nat :=
  glcsdInnerGo s0 si k (k - j) j

/-- Outer loop over `s[1..]`: first `k = Math.min(k, s[i].length)`, then the
inner scan (`src/index.js:147-155`). -/
def glcsdOuter (s0 : List Char) : List (List Char) → Nat → Nat
  | [], k => k
  | si :: rest, k => glcsdOuter s0 rest (glcsdInner s0 si (min k si.length) 0)

/-- Index of the last occurrence of `c`, as `String.prototype.lastIndexOf`
(with `none` standing for `-1`). -/
def lastIndexOfChar (c : Char) : List Char → Option Nat
  | [] => none
  | x :: xs =>
      match lastIndexOfChar c xs with
      | some i => some (i + 1)
      | none => if x = c then some 0 else none

/-- `fullPath.substring(0, fullPath.lastIndexOf('/'))`
(`src/index.js:157`): with no `'/'`, `lastIndexOf` is `-1` and
`substring(0, -1)` clamps to the empty string. -/
def truncAtLastSlash (l : List Char) : List Char :=
  match lastIndexOfChar '/' l with
  | some i => l.take i
  | none => []

/-- `getLongestCommonSharedDirectory` on a non-empty list `s[0] :: rest`. -/
def glcsdNE (s0 : String) (rest : List String) : String :=
  let l0 := s0.toList
  let k := glcsdOuter l0 (rest.map String.toList) l0.length
  String.mk (truncAtLastSlash (l0.take k))

/-- `getLongestCommonSharedDirectory` (`src/index.js:145-158`).  On the
empty list the JavaScript code evaluates `s[0].length` on `undefined` and
throws a `TypeError`, modelled as `none`. -/
def getLongestCommonSharedDirectory : List String → Option String
  | [] => none
  | s0 :: rest => some (glcsdNE s0 rest)

/-! ## Executable Locator (`lookupFile`, `src/index.js:167-185`)

The filesystem and `path.resolve(path.join(dirname, filename))` are external
collaborators; they enter as the parameters `ex` (for `fse.existsSync`) and
`rj`.  The callback of the inner `.some` returns `found = file`, so a
resolved path that is the empty string would be assigned to `found` without
stopping the iteration; this is mirrored faithfully. -/

/-- Inner `.some` over the directories for one filename, threading the
`found` variable.  The returned flag says whether the `.some` succeeded. -/
def lookupDirs (rj : String → String → String) (ex : String → Bool) (filename : String) :
    List String → Option String → Option String × Bool
  | [], found => (found, false)
  | d :: ds, found =>
      let file := rj d filename
      if ex file then
        if file ≠ "" then (some file, true)
        else lookupDirs rj ex filename ds (some file)
      else lookupDirs rj ex filename ds found

/-- Outer `.some` over the filenames. -/
def lookupFiles (rj : String → String → String) (ex : String → Bool) (dirs : List String) :
    List String → Option String → Option String
  | [], found => found
  | f :: fs, found =>
      match lookupDirs rj ex f dirs found with
      | (found2, true) => found2
      | (found2, false) => lookupFiles rj ex dirs fs found2

/-- `lookupFile(files, dirs)` (`src/index.js:167-185`): outer loop over the
candidate filenames, inner loop over the base directories. -/
def lookupFile (rj : String → String → String) (ex : String → Bool)
    (files dirs : List String) : Option String :=
  lookupFiles rj ex dirs files none

/-! ## Transient config file naming (`src/index.js:346-353`) -/

/-- The `dir`/`base` split of `path.parse`: the part before the last `'/'`
and the part after it, with `dir = "/"` for a file directly under the root
and `dir = ""` for a path without separators.  (Matches Node's `path.parse`
for every path not ending in `'/'`; resolved config paths never do.) -/
def pathParseDirBase (p : String) : String × String :=
  match lastIndexOfChar '/' p.toList with
  | none => ("", p)
  | some i =>
      if i = 0 then ("/", String.mk (p.toList.drop 1))
      else (String.mk (p.toList.take i), String.mk (p.toList.drop (i + 1)))

/-- The test `/\.tmp$/.test(tmpFilename)` (`src/index.js:349`). -/
def testTmpSuffix (s : String) : Bool :=
  let l := s.toList
  l.drop (l.length - 4) == ".tmp".toList

/-- Transient file naming (`src/index.js:346-353`): parse the config path
into `dir` and `base`; reuse `dir + '/' + base` if `base` already ends in
`.tmp`, otherwise append `.tmp`. -/
def tmpFileOf (esdocConfig : String) : String :=
  let tmp := pathParseDirBase esdocConfig
  let tmpFilepath := tmp.1
  let tmpFilename := tmp.2
  if testTmpSuffix tmpFilename then tmpFilepath ++ "/" ++ tmpFilename
  else tmpFilepath ++ "/" ++ tmpFilename ++ ".tmp"

/-! ## Transient file cleanup and the `Esdoc` runner (`src/index.js:195-252`)

The filesystem is modelled as a map from paths to file contents. -/

abbrev FS := String → Option String

/-- `fse.unlinkSync`: removes the file, throwing `ENOENT` when it does not
exist. -/
def unlinkSync (fs : FS) (f : String) : Except String FS :=
  if (fs f).isSome then .ok (fun p => if p = f then none else fs p)
  else .error "ENOENT"

/-- The cleanup block at `src/index.js:238-244`: when a tmp file was set and
the user did not ask to preserve it, unlink it — but only after checking
`fse.existsSync(tmpFile)`, so a missing file is never unlinked. -/
def tmpCleanup (tmpFile : Option String) (preserve : Bool) (fs : FS) : Except String FS :=
  match tmpFile with
  | none => .ok fs
  | some f =>
      if !preserve then
        if (fs f).isSome then unlinkSync fs f else .ok fs
      else .ok fs

/-- Outcome of `spawnSync`: captured streams and the numeric exit status
(`null` from `spawnSync` is not distinguished; the status is never read for
the failure decision). -/
structure SpawnResult where
  stdout : String
  stderr : String
  status : Int

/-- What the `Esdoc` method reports. -/
structure EsdocResult where
  failed : Bool
  surfacedStderr : Option String

/-- The `Esdoc` method (`src/index.js:195-252`) after the spawn: clean up
the tmp file per the retention policy, then report failure exactly when
`esdoc.stderr.length > 0` (the stderr is surfaced via `console.error`);
otherwise report success.  The `showOutput` pretty-printing of stdout has
no effect on the result and is not modelled. -/
def Esdoc (preserve : Bool) (tmpFile : Option String) (r : SpawnResult) (fs : FS) :
    Except String (EsdocResult × FS) :=
  match tmpCleanup tmpFile preserve fs with
  | .error e => .error e
  | .ok fs2 =>
      if 0 < r.stderr.length then
        .ok ({ failed := true, surfacedStderr := some r.stderr }, fs2)
      else
        .ok ({ failed := false, surfacedStderr := none }, fs2)

/-! ## Dependency filtering (`src/index.js:329-338`) -/

/-- Whether `pat` occurs as a contiguous sublist of `l`. -/
def containsList (pat : List Char) : List Char → Bool
  | [] => pat.isEmpty
  | x :: xs => pat.isPrefixOf (x :: xs) || containsList pat xs

/-- `/\/node_modules\//.test(filepath)`. -/
def hasNodeModules (fp : String) : Bool :=
  containsList "/node_modules/".toList fp.toList

/-- `/index.js$/.test(filepath)` — the `.` is an unescaped regex wildcard,
so the character between `index` and `js` may be anything. -/
def matchesIndexJs (fp : String) : Bool :=
  let l := fp.toList
  let t := l.drop (l.length - 8)
  t.length == 8 && t.take 5 == "index".toList && t.drop 6 == "js".toList

/-- The `forEach` collecting deduplicated non-`node_modules` entry points
(`src/index.js:329-338`). -/
def filterDeps (deps : List String) : List String :=
  deps.foldl
    (fun acc fp =>
      if !hasNodeModules fp && matchesIndexJs fp && !acc.contains fp then acc ++ [fp]
      else acc)
    []

/-! ## The emit hook (`src/index.js:286-372`)

Inputs that come from the outside world per build cycle are collected in
`EmitEnv`: the result of the executable lookup, whether the config file
exists, what `fse.readJsonSync(..., { throws: false })` returned (`none`
models the `null` it returns on a parse failure), and the compilation's
file dependencies.  The outcome records each invocation of the host
pipeline continuation `callback` (`some err` for `callback(err)`, `none`
for `callback()`), whether an exception escaped the hook body, which
configuration branch was taken, the argument passed to
`getLongestCommonSharedDirectory` if it was called, and the object/path
written to the transient file. -/

inductive JSError where
  | execNotFound : JSError
  | typeErr : String → JSError

structure EmitEnv where
  cmdFound : Option String
  configExists : Bool
  parsedConfig : Option JSVal
  fileDeps : List String

structure EmitOutcome where
  calls : List (Option JSError)
  crashed : Bool
  usedConfigBranch : Option Bool
  lcpArg : Option (List String)
  written : Option (JSObj × String)

/-- Tail of the emit hook shared by both branches (`src/index.js:345-372`):
compute the tmp path, write the merged object, then
`try { this.Esdoc(cmd, ...) } catch { return new Error(...) }; callback()`.
When `cmd` is `null` (lookup failed), `spawnSync(null, ...)` throws, the
catch returns early, and `callback()` is never reached; otherwise the final
`callback()` fires. -/
def emitFinish (calls0 : List (Option JSError)) (branch : Bool) (lcpArg : Option (List String))
    (obj2 : JSObj) (cfgPath : String) (cmd : Option String) : EmitOutcome :=
  { calls := calls0 ++ (match cmd with | none => [] | some _ => [none]),
    crashed := false,
    usedConfigBranch := some branch,
    lcpArg := lcpArg,
    written := some (obj2, tmpFileOf cfgPath) }

/-- The inference branch (`src/index.js:326-343`): filter the dependency
set, call `getLongestCommonSharedDirectory` on it (a `TypeError` escapes
when the filtered list is empty), assign `obj.source`, and merge the
instance options on top. -/
def emitInfer (calls0 : List (Option JSError)) (obj0 : JSVal) (options : JSObj)
    (cfgPath : String) (env : EmitEnv) : EmitOutcome :=
  let files := filterDeps env.fileDeps
  match files with
  | [] =>
      { calls := calls0, crashed := true, usedConfigBranch := some false,
        lcpArg := some [], written := none }
  | f :: fs =>
      let obj1 := jsSetProp obj0 "source" (.vStr (glcsdNE f fs))
      emitFinish calls0 false (some (f :: fs)) (mergeSpread (spreadFields obj1) options)
        cfgPath env.cmdFound

/-- The emit hook body of the class-based plugin (`src/index.js:286-372`).
Key translation points, each taken from the source:
* executable lookup failure calls `callback(new Error(...))` *without*
  returning (`src/index.js:303-305`), so execution continues;
* `readConfigFile` uses `fse.readJsonSync(filepath, { throws: false })`
  (`src/index.js:113`), which returns `null` instead of throwing on a parse
  failure, so the surrounding `try/catch` (`src/index.js:308-313`) never
  fires and `obj` becomes `null`;
* the guard `if (obj.source && obj.includes)` (`src/index.js:317`) then
  throws a `TypeError` on a `null` `obj`, escaping the hook. -/
def emitHookV1 (options : JSObj) (cfgPath : String) (env : EmitEnv) : EmitOutcome :=
  let calls0 : List (Option JSError) :=
    if env.cmdFound.isNone then [some .execNotFound] else []
  let obj0 : JSVal := if env.configExists then env.parsedConfig.getD .vNull else .vObj []
  match propAccess obj0 "source" with
  | .error _ =>
      { calls := calls0, crashed := true, usedConfigBranch := none,
        lcpArg := none, written := none }
  | .ok vsrc =>
      if jsTruthy vsrc then
        match propAccess obj0 "includes" with
        | .error _ =>
            { calls := calls0, crashed := true, usedConfigBranch := none,
              lcpArg := none, written := none }
        | .ok vinc =>
            if jsTruthy vinc then
              emitFinish calls0 true none (mergeSpread (spreadFields obj0) options)
                cfgPath env.cmdFound
            else emitInfer calls0 obj0 options cfgPath env
      else emitInfer calls0 obj0 options cfgPath env

/-! ## Analysis: common prefix length

`cpl a b` is the length of the longest common prefix of two char lists; it
is the yardstick against which the imperative loops of
`getLongestCommonSharedDirectory` are measured. -/

def cpl : List Char → List Char → Nat
  | x :: xs, y :: ys => if x = y then cpl xs ys + 1 else 0
  | _, _ => 0

theorem cpl_le_left (a : List Char) : ∀ b, cpl a b ≤ a.length := by
  induction a with
  | nil => intro b; cases b <;> simp [cpl]
  | cons x xs ih =>
    intro b
    cases b with
    | nil => simp [cpl]
    | cons y ys =>
      by_cases h : x = y
      · simp only [cpl, if_pos h, List.length_cons]
        exact Nat.succ_le_succ (ih ys)
      · simp [cpl, h]

theorem cpl_le_right (a : List Char) : ∀ b, cpl a b ≤ b.length := by
  induction a with
  | nil => intro b; cases b <;> simp [cpl]
  | cons x xs ih =>
    intro b
    cases b with
    | nil => simp [cpl]
    | cons y ys =>
      by_cases h : x = y
      · simp only [cpl, if_pos h, List.length_cons]
        exact Nat.succ_le_succ (ih ys)
      · simp [cpl, h]

theorem take_cpl_eq (a : List Char) : ∀ b, a.take (cpl a b) = b.take (cpl a b) := by
  induction a with
  | nil => intro b; cases b <;> simp [cpl]
  | cons x xs ih =>
    intro b
    cases b with
    | nil => simp [cpl]
    | cons y ys =>
      by_cases h : x = y
      · simp only [cpl, if_pos h, List.take_succ_cons]
        rw [h, ih ys]
      · simp [cpl, h]

theorem take_eq_of_le_cpl {a b : List Char} {k : Nat} (h : k ≤ cpl a b) :
    a.take k = b.take k := by
  have h1 : a.take k = (a.take (cpl a b)).take k := by
    rw [List.take_take, Nat.min_eq_left h]
  have h2 : b.take k = (b.take (cpl a b)).take k := by
    rw [List.take_take, Nat.min_eq_left h]
  rw [h1, h2, take_cpl_eq]

theorem length_le_cpl_of_prefix : ∀ (q a b : List Char), q <+: a → q <+: b →
    q.length ≤ cpl a b := by
  intro q
  induction q with
  | nil => exact fun a b _ _ => Nat.zero_le _
  | cons c cs ih =>
    intro a b ha hb
    obtain ⟨ta, rfl⟩ := ha
    obtain ⟨tb, rfl⟩ := hb
    simp only [List.cons_append, cpl, if_pos rfl, List.length_cons]
    exact Nat.succ_le_succ (ih _ _ (List.prefix_append cs ta) (List.prefix_append cs tb))

/-! ## The loops of `getLongestCommonSharedDirectory` compute `cpl` -/

theorem glcsdInnerGo_eq (s0 si : List Char) (k : Nat) (hk0 : k ≤ s0.length)
    (hki : k ≤ si.length) :
    ∀ (fuel j : Nat), k - j ≤ fuel →
      glcsdInnerGo s0 si k fuel j = min k (j + cpl (s0.drop j) (si.drop j)) := by
  intro fuel
  induction fuel with
  | zero =>
    intro j hj
    rw [glcsdInnerGo]
    omega
  | succ n ih =>
    intro j hj
    by_cases hjk : j < k
    · have hjs0 : j < s0.length := lt_of_lt_of_le hjk hk0
      have hjsi : j < si.length := lt_of_lt_of_le hjk hki
      have hd0 : s0.drop j = s0[j] :: s0.drop (j + 1) := List.drop_eq_getElem_cons hjs0
      have hdi : si.drop j = si[j] :: si.drop (j + 1) := List.drop_eq_getElem_cons hjsi
      have hg0 : s0.getD j ' ' = s0[j] := by
        simp [List.getD_eq_getElem?_getD, List.getElem?_eq_getElem hjs0]
      have hgi : si.getD j ' ' = si[j] := by
        simp [List.getD_eq_getElem?_getD, List.getElem?_eq_getElem hjsi]
      rw [glcsdInnerGo, if_pos hjk, hg0, hgi]
      by_cases heq : si[j] = s0[j]
      · rw [if_pos heq, ih (j + 1) (by omega), hd0, hdi]
        simp only [cpl, if_pos heq.symm]
        omega
      · rw [if_neg heq, hd0, hdi]
        have hz : cpl (s0[j] :: s0.drop (j + 1)) (si[j] :: si.drop (j + 1)) = 0 := by
          simp only [cpl]
          rw [if_neg (fun h : s0[j] = si[j] => heq h.symm)]
        rw [hz]
        omega
    · rw [glcsdInnerGo, if_neg hjk]
      omega

theorem glcsdInner_closed (s0 si : List Char) (k : Nat) (hk0 : k ≤ s0.length)
    (hki : k ≤ si.length) :
    glcsdInner s0 si k 0 = min k (cpl s0 si) := by
  have h := glcsdInnerGo_eq s0 si k hk0 hki (k - 0) 0 (Nat.le_refl _)
  simpa [glcsdInner] using h

theorem glcsdOuter_eq (s0 : List Char) :
    ∀ (rest : List (List Char)) (k : Nat), k ≤ s0.length →
      glcsdOuter s0 rest k = rest.foldl (fun m si => min m (cpl s0 si)) k := by
  intro rest
  induction rest with
  | nil => intro k _; rfl
  | cons si r ih =>
    intro k hk
    have h1 : glcsdInner s0 si (min k si.length) 0 = min (min k si.length) (cpl s0 si) :=
      glcsdInner_closed s0 si (min k si.length)
        (le_trans (Nat.min_le_left _ _) hk) (Nat.min_le_right _ _)
    have h2 : min (min k si.length) (cpl s0 si) = min k (cpl s0 si) := by
      have := cpl_le_right s0 si
      omega
    simp only [List.foldl_cons]
    rw [glcsdOuter, h1, h2]
    exact ih _ (by omega)

theorem foldl_min_le_init (f : List Char → Nat) :
    ∀ (rest : List (List Char)) (k : Nat),
      rest.foldl (fun m si => min m (f si)) k ≤ k := by
  intro rest
  induction rest with
  | nil => intro k; exact Nat.le_refl k
  | cons si r ih =>
    intro k
    simp only [List.foldl_cons]
    exact le_trans (ih _) (Nat.min_le_left _ _)

theorem foldl_min_le_mem (f : List Char → Nat) :
    ∀ (rest : List (List Char)) (k : Nat) (si : List Char), si ∈ rest →
      rest.foldl (fun m s => min m (f s)) k ≤ f si := by
  intro rest
  induction rest with
  | nil => intro k si h; cases h
  | cons x r ih =>
    intro k si h
    simp only [List.foldl_cons]
    rcases List.mem_cons.mp h with h | h
    · subst h
      exact le_trans (foldl_min_le_init f r _) (Nat.min_le_right _ _)
    · exact ih _ si h

theorem le_foldl_min (f : List Char → Nat) :
    ∀ (rest : List (List Char)) (k q : Nat), q ≤ k → (∀ si ∈ rest, q ≤ f si) →
      q ≤ rest.foldl (fun m s => min m (f s)) k := by
  intro rest
  induction rest with
  | nil => intro k q hq _; exact hq
  | cons x r ih =>
    intro k q hq hall
    simp only [List.foldl_cons]
    refine ih _ q ?_ (fun si h => hall si (List.mem_cons_of_mem _ h))
    have := hall x (List.mem_cons_self x r)
    omega

/-- C3: For every non-empty list of paths, `getLongestCommonSharedDirectory`
returns exactly the longest common leading prefix of all the paths,
truncated back to the last `'/'` boundary; in particular the spec's example
`["/a/b/index.js", "/a/b/c/index.js", "/a/bb/index.js"]` yields `"/a"`. -/
theorem C3_common_prefix_resolver (s0 : String) (rest : List String) :
    (∃ p : List Char,
      (∀ x ∈ s0 :: rest, p <+: x.toList) ∧
      (∀ q : List Char, (∀ x ∈ s0 :: rest, q <+: x.toList) → q.length ≤ p.length) ∧
      getLongestCommonSharedDirectory (s0 :: rest) =
        some (String.mk (truncAtLastSlash p))) ∧
    getLongestCommonSharedDirectory ["/a/b/index.js", "/a/b/c/index.js", "/a/bb/index.js"] =
      some "/a" := by
  refine ⟨?_, rfl⟩
  have hfold : glcsdOuter s0.toList (rest.map String.toList) s0.toList.length =
      (rest.map String.toList).foldl (fun m si => min m (cpl s0.toList si)) s0.toList.length :=
    glcsdOuter_eq s0.toList (rest.map String.toList) s0.toList.length (Nat.le_refl _)
  have hkF_le : glcsdOuter s0.toList (rest.map String.toList) s0.toList.length ≤
      s0.toList.length := by
    rw [hfold]
    exact foldl_min_le_init _ _ _
  refine ⟨s0.toList.take (glcsdOuter s0.toList (rest.map String.toList) s0.toList.length),
    ?_, ?_, ?_⟩
  · intro x hx
    rcases List.mem_cons.mp hx with h | h
    · subst h
      exact List.take_prefix _ x.toList
    · have hmem : x.toList ∈ rest.map String.toList := List.mem_map_of_mem String.toList h
      have hle : glcsdOuter s0.toList (rest.map String.toList) s0.toList.length ≤
          cpl s0.toList x.toList := by
        rw [hfold]
        exact foldl_min_le_mem _ _ _ _ hmem
      rw [take_eq_of_le_cpl hle]
      exact List.take_prefix _ x.toList
  · intro q hq
    have hq0 : q <+: s0.toList := hq s0 (List.mem_cons_self s0 rest)
    have hlen : (s0.toList.take
        (glcsdOuter s0.toList (rest.map String.toList) s0.toList.length)).length =
        glcsdOuter s0.toList (rest.map String.toList) s0.toList.length := by
      rw [List.length_take]
      omega
    rw [hlen, hfold]
    refine le_foldl_min _ _ _ _ hq0.length_le ?_
    intro si hsi
    obtain ⟨x, hx, rfl⟩ := List.mem_map.mp hsi
    exact length_le_cpl_of_prefix q s0.toList x.toList hq0
      (hq x (List.mem_cons_of_mem s0 hx))
  · simp only [getLongestCommonSharedDirectory, glcsdNE]

/-! ## The Executable Locator returns the first existing combination -/

theorem lookupDirs_none_eq (rj : String → String → String) (ex : String → Bool)
    (f : String) (hrj : ∀ d g, rj d g ≠ "") :
    ∀ dirs : List String,
      lookupDirs rj ex f dirs none =
        match (dirs.map (fun d => rj d f)).find? ex with
        | some x => (some x, true)
        | none => (none, false) := by
  intro dirs
  induction dirs with
  | nil => rfl
  | cons d ds ih =>
    simp only [lookupDirs, List.map_cons, List.find?_cons]
    by_cases h : ex (rj d f)
    · simp [h, hrj d f]
    · simp only [h, if_neg]
      simpa [h] using ih

theorem lookupFile_eq_find (rj : String → String → String) (ex : String → Bool)
    (dirs : List String) (hrj : ∀ d g, rj d g ≠ "") :
    ∀ files : List String,
      lookupFile rj ex files dirs =
        ((files.map (fun f => dirs.map (fun d => rj d f))).flatten).find? ex := by
  intro files
  induction files with
  | nil => rfl
  | cons f fs ih =>
    simp only [lookupFile, lookupFiles, List.map_cons, List.flatten_cons, List.find?_append]
    rw [lookupDirs_none_eq rj ex f hrj dirs]
    cases hf : (dirs.map (fun d => rj d f)).find? ex with
    | some x => simp
    | none => simpa using ih

/-- C4: `lookupFile` returns the first existing `resolve(join(dir, file))`,
iterating candidate filenames in the outer loop and base directories in the
inner loop (so a filename is tried in every directory before the next
filename), and `null` (`none`) when no combination exists.  The hypothesis
reflects that `path.resolve` never returns the empty string. -/
theorem C4_executable_locator (rj : String → String → String) (ex : String → Bool)
    (files dirs : List String) (hrj : ∀ d g, rj d g ≠ "") :
    lookupFile rj ex files dirs =
      ((files.map (fun f => dirs.map (fun d => rj d f))).flatten).find? ex :=
  lookupFile_eq_find rj ex dirs hrj files

theorem append_slash_ne_empty (d f : String) : d ++ "/" ++ f ≠ "" := by
  intro h
  have hlen := congrArg String.length h
  simp only [String.length_append] at hlen
  have hone : ("/" : String).length = 1 := rfl
  have hzero : ("" : String).length = 0 := rfl
  omega

/-- Witness for C4, at the spec's own example: `files = ['x/tool',
'y/tool.js']`, `dirs = ['/p', '/q']`, with only `/q/x/tool` existing: both
directories are tried for the first filename before the second filename. -/
theorem C4_executable_locator_witness :
    lookupFile (fun d f => d ++ "/" ++ f) (fun s => s == "/q/x/tool")
      ["x/tool", "y/tool.js"] ["/p", "/q"] = some "/q/x/tool" :=
  (C4_executable_locator (fun d f => d ++ "/" ++ f) (fun s => s == "/q/x/tool")
    ["x/tool", "y/tool.js"] ["/p", "/q"]
    (fun d f => append_slash_ne_empty d f)).trans rfl

/-- C7: In the merge `obj = {...obj, ...options}` (`src/index.js:324` and
`src/index.js:342`), every key present in the instance options resolves to
the instance option's value, regardless of what the discovered or inferred
configuration object holds for that key. -/
theorem C7_instance_options_precedence (obj opts : JSObj) (k : String)
    (h : (lookupProp opts k).isSome = true) :
    lookupProp (mergeSpread obj opts) k = lookupProp opts k := by
  have hf : (opts.find? (fun kv => kv.1 == k)).isSome = true := by
    simpa [lookupProp] using h
  obtain ⟨kv, hkv⟩ := Option.isSome_iff_exists.mp hf
  simp [lookupProp, mergeSpread, List.find?_append, hkv]

/-- Witness for C7, at the spec's example: file config
`{source: 'a', includes: ['x'], destination: 'd1'}` merged with instance
options `{destination: 'd2'}` yields destination `'d2'`. -/
theorem C7_instance_options_precedence_witness :
    lookupProp
      (mergeSpread
        [("source", JSVal.vStr "a"), ("includes", JSVal.vArr [JSVal.vStr "x"]),
         ("destination", JSVal.vStr "d1")]
        [("destination", JSVal.vStr "d2")])
      "destination" = some (JSVal.vStr "d2") :=
  (C7_instance_options_precedence
    [("source", JSVal.vStr "a"), ("includes", JSVal.vArr [JSVal.vStr "x"]),
     ("destination", JSVal.vStr "d1")]
    [("destination", JSVal.vStr "d2")] "destination" rfl).trans rfl

/-! ## Transient file cleanup never errors -/

theorem tmpCleanup_some_eq (f : String) (preserve : Bool) (fs : FS) :
    tmpCleanup (some f) preserve fs =
      .ok (fun p => if p = f ∧ preserve = false then none else fs p) := by
  cases preserve with
  | true =>
    simp only [tmpCleanup, Bool.not_true, Bool.false_eq_true, if_false]
    congr 1
    funext p
    simp
  | false =>
    simp only [tmpCleanup, Bool.not_false, if_true]
    by_cases hex : (fs f).isSome
    · rw [if_pos hex]
      unfold unlinkSync
      rw [if_pos hex]
      congr 1
      funext p
      by_cases hp : p = f <;> simp [hp]
    · rw [if_neg hex]
      congr 1
      funext p
      by_cases hp : p = f
      · subst hp
        simp [Option.not_isSome_iff_eq_none.mp hex]
      · simp [hp]

/-- C9: The post-run deletion (`src/index.js:238-244`) never throws — a
missing file is skipped thanks to the `existsSync` guard — and the
resulting filesystem keeps the transient file exactly when
`preserveTmpFile` is set (with its last-written content), while with
`preserveTmpFile=false` the file is absent afterwards; no other path is
touched.  (A `tmpFile` of `null` is also a no-op.) -/
theorem C9_transient_cleanup (f : String) (preserve : Bool) (fs : FS) :
    tmpCleanup (some f) preserve fs =
      .ok (fun p => if p = f ∧ preserve = false then none else fs p) ∧
    tmpCleanup none preserve fs = .ok fs :=
  ⟨tmpCleanup_some_eq f preserve fs, rfl⟩

/-- C2: The `Esdoc` runner (`src/index.js:245-251`) reports failure exactly
when some stderr content was captured — the captured stderr is what gets
surfaced — and the numeric exit status has no influence on the outcome
(third conjunct), so a run with exit status 0 but non-empty stderr is still
reported failed, and a run with empty stderr is reported successful. -/
theorem C2_stderr_decides_failure (preserve : Bool) (tmpFile : Option String)
    (r : SpawnResult) (fs : FS) :
    (∃ fs2, Esdoc preserve tmpFile r fs =
        .ok ({ failed := decide (0 < r.stderr.length),
               surfacedStderr := if 0 < r.stderr.length then some r.stderr else none }, fs2)) ∧
    ((0 < r.stderr.length) ↔ r.stderr ≠ "") ∧
    (∀ s : Int, Esdoc preserve tmpFile { r with status := s } fs =
        Esdoc preserve tmpFile r fs) := by
  refine ⟨?_, ?_, fun s => rfl⟩
  · cases tmpFile with
    | none =>
      refine ⟨fs, ?_⟩
      unfold Esdoc
      rw [show tmpCleanup none preserve fs = .ok fs from rfl]
      by_cases h : 0 < r.stderr.length <;> simp [h]
    | some f =>
      refine ⟨fun p => if p = f ∧ preserve = false then none else fs p, ?_⟩
      unfold Esdoc
      rw [tmpCleanup_some_eq]
      by_cases h : 0 < r.stderr.length <;> simp [h]
  · constructor
    · intro h he
      rw [he] at h
      simp at h
    · intro h
      rcases Nat.eq_zero_or_pos r.stderr.length with h0 | hpos
      · exact absurd (String.ext (List.length_eq_zero.mp h0)) h
      · exact hpos

/-! ## Transient file naming -/

theorem lastIndexOfChar_eq_none {c : Char} :
    ∀ {l : List Char}, c ∉ l → lastIndexOfChar c l = none := by
  intro l
  induction l with
  | nil => intro _; rfl
  | cons x xs ih =>
    intro h
    have hxc : ¬ x = c := fun hx => h (hx ▸ List.mem_cons_self x xs)
    simp only [lastIndexOfChar]
    rw [ih (fun hm => h (List.mem_cons_of_mem _ hm)), if_neg hxc]

theorem lastIndexOfChar_append {c : Char} (l1 l2 : List Char) (h : c ∉ l2) :
    lastIndexOfChar c (l1 ++ c :: l2) = some l1.length := by
  induction l1 with
  | nil =>
    simp [lastIndexOfChar, lastIndexOfChar_eq_none h]
  | cons x xs ih =>
    simp only [List.cons_append, lastIndexOfChar, List.append_eq, ih, List.length_cons]

theorem string_mk_toList (s : String) : String.mk s.toList = s := rfl

theorem pathParseDirBase_append (dir base : String) (hdir : dir ≠ "")
    (hbase : '/' ∉ base.toList) :
    pathParseDirBase (dir ++ "/" ++ base) = (dir, base) := by
  have hlist : (dir ++ "/" ++ base).toList = dir.toList ++ '/' :: base.toList := by
    show (dir ++ "/" ++ base).data = dir.data ++ '/' :: base.data
    simp [String.data_append]
  have hlen : dir.toList.length ≠ 0 := by
    intro h0
    exact hdir (String.ext (List.length_eq_zero.mp h0))
  unfold pathParseDirBase
  rw [hlist, lastIndexOfChar_append _ _ hbase]
  simp only [if_neg hlen]
  have htake : (dir.toList ++ '/' :: base.toList).take dir.toList.length = dir.toList :=
    List.take_left _ _
  have hdrop : (dir.toList ++ '/' :: base.toList).drop (dir.toList.length + 1) =
      base.toList := by
    rw [List.append_cons]
    exact List.drop_left' (by simp)
  rw [htake, hdrop, string_mk_toList, string_mk_toList]

/-- C8 (amended): for every configuration path of the form `dir/base` with a
non-empty directory part and a separator-free filename, the transient path
is the configuration path with `.tmp` appended, except that a filename
already ending in `.tmp` is reused unchanged.  (For a configuration file
directly under the filesystem root the parsed directory is `"/"` and the
rejoin `dir + '/' + base` doubles the leading slash; see the
counterexample.) -/
theorem C8_transient_naming (dir base : String) (hdir : dir ≠ "")
    (hbase : '/' ∉ base.toList) :
    tmpFileOf (dir ++ "/" ++ base) =
      if testTmpSuffix base then dir ++ "/" ++ base
      else dir ++ "/" ++ base ++ ".tmp" := by
  unfold tmpFileOf
  rw [pathParseDirBase_append dir base hdir hbase]

/-- Witness for C8: `/p/.esdoc.json` maps to `/p/.esdoc.json.tmp`, and a
config path already ending in `.tmp` maps to itself. -/
theorem C8_transient_naming_witness :
    tmpFileOf ("/p" ++ "/" ++ ".esdoc.json") = "/p" ++ "/" ++ ".esdoc.json" ++ ".tmp" ∧
    tmpFileOf ("/p" ++ "/" ++ ".esdoc.json.tmp") = "/p" ++ "/" ++ ".esdoc.json.tmp" :=
  ⟨(C8_transient_naming "/p" ".esdoc.json" (by decide) (by decide)).trans rfl,
   (C8_transient_naming "/p" ".esdoc.json.tmp" (by decide) (by decide)).trans rfl⟩

/-- C8 counterexample: for the resolved root-level configuration path
`/.esdoc.json` (reachable with `cwd: '/'`), the code produces
`//.esdoc.json.tmp` — `path.parse` gives `dir = '/'` and the rejoin
`dir + '/' + base` doubles the slash — which is not the configuration path
with `.tmp` appended, so the claim as stated fails on this input. -/
theorem C8_transient_naming_counterexample :
    tmpFileOf "/.esdoc.json" = "//.esdoc.json.tmp" ∧
    tmpFileOf "/.esdoc.json" ≠ "/.esdoc.json" ++ ".tmp" := by
  refine ⟨rfl, ?_⟩
  decide

/-! ## Which configuration branch the emit hook takes -/

theorem emitFinish_usedConfigBranch (calls0 : List (Option JSError)) (branch : Bool)
    (lcpArg : Option (List String)) (obj2 : JSObj) (cfg : String) (cmd : Option String) :
    (emitFinish calls0 branch lcpArg obj2 cfg cmd).usedConfigBranch = some branch := rfl

theorem emitInfer_usedConfigBranch (calls0 : List (Option JSError)) (obj0 : JSVal)
    (options : JSObj) (cfg : String) (env : EmitEnv) :
    (emitInfer calls0 obj0 options cfg env).usedConfigBranch = some false := by
  unfold emitInfer
  cases filterDeps env.fileDeps with
  | nil => rfl
  | cons f fs => exact emitFinish_usedConfigBranch _ _ _ _ _ _

/-- C10: A parsed configuration object is treated as authoritative exactly
when both `obj.source` and `obj.includes` are *truthy* (`src/index.js:317`),
not merely present: the general conjunct shows the chosen branch equals the
conjunction of the two truthiness tests, and the remaining conjuncts show
objects whose `source` is `""` or whose `includes` is `null`, `0` or
`false` — all with both fields present — fall through to inference. -/
theorem C10_authoritative_iff_truthy :
    (∀ (flds : JSObj) (cmd : Option String) (deps : List String) (opts : JSObj) (cfg : String),
      (emitHookV1 opts cfg
          { cmdFound := cmd, configExists := true, parsedConfig := some (.vObj flds),
            fileDeps := deps }).usedConfigBranch =
        some (jsTruthy ((lookupProp flds "source").getD .vUndefined) &&
              jsTruthy ((lookupProp flds "includes").getD .vUndefined))) ∧
    ((lookupProp [("source", JSVal.vStr ""), ("includes", JSVal.vArr [JSVal.vStr "x"])]
        "source").isSome = true ∧
      (emitHookV1 defaultOptions "/proj/.esdoc.json"
          { cmdFound := some "/c", configExists := true,
            parsedConfig := some (.vObj
              [("source", JSVal.vStr ""), ("includes", JSVal.vArr [JSVal.vStr "x"])]),
            fileDeps := ["/proj/src/index.js"] }).usedConfigBranch = some false) ∧
    ((lookupProp [("source", JSVal.vStr "./src"), ("includes", JSVal.vNull)]
        "includes").isSome = true ∧
      (emitHookV1 defaultOptions "/proj/.esdoc.json"
          { cmdFound := some "/c", configExists := true,
            parsedConfig := some (.vObj
              [("source", JSVal.vStr "./src"), ("includes", JSVal.vNull)]),
            fileDeps := ["/proj/src/index.js"] }).usedConfigBranch = some false) ∧
    ((lookupProp [("source", JSVal.vStr "./src"), ("includes", JSVal.vNum 0)]
        "includes").isSome = true ∧
      (emitHookV1 defaultOptions "/proj/.esdoc.json"
          { cmdFound := some "/c", configExists := true,
            parsedConfig := some (.vObj
              [("source", JSVal.vStr "./src"), ("includes", JSVal.vNum 0)]),
            fileDeps := ["/proj/src/index.js"] }).usedConfigBranch = some false) ∧
    ((lookupProp [("source", JSVal.vStr "./src"), ("includes", JSVal.vBool false)]
        "includes").isSome = true ∧
      (emitHookV1 defaultOptions "/proj/.esdoc.json"
          { cmdFound := some "/c", configExists := true,
            parsedConfig := some (.vObj
              [("source", JSVal.vStr "./src"), ("includes", JSVal.vBool false)]),
            fileDeps := ["/proj/src/index.js"] }).usedConfigBranch = some false) := by
  refine ⟨?_, ⟨rfl, rfl⟩, ⟨rfl, rfl⟩, ⟨rfl, rfl⟩, ⟨rfl, rfl⟩⟩
  intro flds cmd deps opts cfg
  by_cases hs : jsTruthy ((lookupProp flds "source").getD .vUndefined) = true
  · by_cases hi : jsTruthy ((lookupProp flds "includes").getD .vUndefined) = true
    · simp [emitHookV1, propAccess, hs, hi, emitFinish_usedConfigBranch]
    · simp only [Bool.not_eq_true] at hi
      simp [emitHookV1, propAccess, hs, hi, emitInfer_usedConfigBranch]
  · simp only [Bool.not_eq_true] at hs
    simp [emitHookV1, propAccess, hs, emitInfer_usedConfigBranch]

/-- C1 (failing input): a build cycle in which the executable *is* found,
no config file exists, and the dependency set yields no entry points.  The
hook enters the inference branch, `getLongestCommonSharedDirectory` throws
on the empty list, the exception escapes the hook, and the pipeline
continuation is invoked zero times — not exactly once as claimed. -/
theorem C1_continuation_fired_zero_times :
    (emitHookV1 defaultOptions "/proj/.esdoc.json"
        { cmdFound := some "/proj/node_modules/.bin/esdoc", configExists := false,
          parsedConfig := none, fileDeps := [] }).calls = [] ∧
    (emitHookV1 defaultOptions "/proj/.esdoc.json"
        { cmdFound := some "/proj/node_modules/.bin/esdoc", configExists := false,
          parsedConfig := none, fileDeps := [] }).crashed = true :=
  ⟨rfl, rfl⟩

/-- C5 (failing input): the config file exists but cannot be parsed.
`fse.readJsonSync(..., { throws: false })` returns `null` instead of
throwing, so the `catch` at `src/index.js:310-313` never fires; the
`obj.source` read on `null` then throws a `TypeError` that escapes the
hook.  The continuation is never invoked (`calls = []`), so the parse
failure is *not* propagated to the pipeline continuation — though, as the
claim says, inference is indeed not attempted (`lcpArg = none`, no branch
reached). -/
theorem C5_parse_failure_not_propagated :
    (emitHookV1 defaultOptions "/proj/.esdoc.json"
        { cmdFound := some "/proj/node_modules/.bin/esdoc", configExists := true,
          parsedConfig := none, fileDeps := ["/proj/src/index.js"] }).crashed = true ∧
    (emitHookV1 defaultOptions "/proj/.esdoc.json"
        { cmdFound := some "/proj/node_modules/.bin/esdoc", configExists := true,
          parsedConfig := none, fileDeps := ["/proj/src/index.js"] }).calls = [] ∧
    (emitHookV1 defaultOptions "/proj/.esdoc.json"
        { cmdFound := some "/proj/node_modules/.bin/esdoc", configExists := true,
          parsedConfig := none, fileDeps := ["/proj/src/index.js"] }).lcpArg = none ∧
    (emitHookV1 defaultOptions "/proj/.esdoc.json"
        { cmdFound := some "/proj/node_modules/.bin/esdoc", configExists := true,
          parsedConfig := none, fileDeps := ["/proj/src/index.js"] }).usedConfigBranch =
      none :=
  ⟨rfl, rfl, rfl, rfl⟩

/-- C6 (failing input): no config file, and the only dependency lies under
`node_modules`, so the filtered set is empty.  The code nevertheless calls
`getLongestCommonSharedDirectory` on the empty list (`lcpArg = some []`),
which throws (`getLongestCommonSharedDirectory [] = none` models the
`TypeError`), the hook crashes, and no configuration error is signalled to
the continuation (`calls = []`). -/
theorem C6_lcp_invoked_on_empty_list :
    (emitHookV1 defaultOptions "/proj/.esdoc.json"
        { cmdFound := some "/proj/node_modules/.bin/esdoc", configExists := false,
          parsedConfig := none,
          fileDeps := ["/proj/node_modules/a/index.js"] }).lcpArg = some [] ∧
    (emitHookV1 defaultOptions "/proj/.esdoc.json"
        { cmdFound := some "/proj/node_modules/.bin/esdoc", configExists := false,
          parsedConfig := none,
          fileDeps := ["/proj/node_modules/a/index.js"] }).crashed = true ∧
    (emitHookV1 defaultOptions "/proj/.esdoc.json"
        { cmdFound := some "/proj/node_modules/.bin/esdoc", configExists := false,
          parsedConfig := none,
          fileDeps := ["/proj/node_modules/a/index.js"] }).calls = [] ∧
    getLongestCommonSharedDirectory [] = none :=
  ⟨rfl, rfl, rfl, rfl⟩
